import Mathlib

/-!
Shallow embedding of the similarity engine in `src/similarity_engine.py`
(class `SimilarityEngine`) together with the data model of `src/models.py`.

External collaborators (the network via `requests`, image decoding via PIL,
the CLIP feature extractor, and the `md5` hash) are modelled as oracles in an
`Env` record: the engine's own control flow is translated statement by
statement from the Python source.  Machine floats are modelled as exact
rationals.  The on-disk cache directory is part of the engine state: `none`
means the directory is absent, `some entries` means it exists and holds the
listed files (path ↦ raw bytes).
-/

/-- Raw image bytes as stored on disk / returned by the network. -/
abbrev ImageBytes := List Nat

/-- A decoded RGB image (`Image.open(...).convert("RGB")`). -/
abbrev Image := List Nat

/-- Python-dict lookup on an association list (insertion ordered). -/
def dictGet {β : Type} (d : List (String × β)) (k : String) : Option β :=
  match d with
  | [] => none
  | (k', v) :: rest => if k' = k then some v else dictGet rest k

/-- Python-dict assignment `d[k] = v`: replaces in place when the key is
present, otherwise appends (insertion order, keys stay distinct). -/
def dictInsert {β : Type} (d : List (String × β)) (k : String) (v : β) :
    List (String × β) :=
  match d with
  | [] => [(k, v)]
  | (k', v') :: rest =>
    if k' = k then (k, v) :: rest else (k', v') :: dictInsert rest k v

/-- The keys of a Python dict, in insertion order. -/
def dictKeys {β : Type} (d : List (String × β)) : List String :=
  d.map Prod.fst

/-- `FirestoreProduct` from `src/models.py`. -/
structure FirestoreProduct where
  id : String
  nombre : String
  marca : Option String := none
  modelo : Option String := none
  imagenUrl : Option String := none
  categoria : Option String := none
  precio : Option ℚ := none
  stock : Option Int := none
  fechaCreacion : Option (String ⊕ Int) := none
  activo : Bool := true
deriving DecidableEq

/-- The per-product metadata record stored in `self.product_metadata`
(`sync_products`, lines 166-174). -/
structure ProductMetadata where
  nombre : String
  marca : Option String
  modelo : Option String
  imagen_url : String
  categoria : Option String
  precio : Option ℚ
  stock : Option Int
deriving DecidableEq

/-- `ProductResult` from `src/models.py`. -/
structure ProductResult where
  product_id : String
  nombre : String
  marca : Option String
  modelo : Option String
  imagen_url : String
  similarity_score : ℚ
  rank : Nat
  categoria : Option String
  precio : Option ℚ
  stock : Option Int
deriving DecidableEq

/-- The spec's `SyncReport{indexed_count, skipped_count}` (spec §4.4).  The
Python `sync_products` returns `None` on every non-raising path, so the
engine's modelled return value is an `Option SyncReport` that is always
`none`; the structure exists so that the absence of a report can be stated. -/
structure SyncReport where
  indexed : Nat
  skipped : Nat
deriving DecidableEq

/-- Oracles for the engine's external collaborators: `network url` is the
body of a successful `requests.get` (`none` = network failure or bad status),
`decode` is PIL decoding of raw bytes (`none` = undecodable), `embed` is
`_extract_features` on a decoded image (`none` = extraction failure, which
the Python code signals by returning `None`), `md5` is the hex digest used
for cache paths and `indexed_urls` keys. -/
structure Env where
  network : String → Option ImageBytes
  decode : ImageBytes → Option Image
  embed : Image → Option (List ℚ)
  md5 : String → String

/-- The mutable state of a `SimilarityEngine` instance plus the cache
directory it owns on disk.  `cacheDir = none` models an absent directory;
`index` is the FAISS index's row matrix (`none` before any successful build);
`product_metadata` and `indexed_urls` are the two Python dicts from
`__init__`; `faiss_to_product` is the slot→id list built by `sync_products`. -/
structure EngineState where
  cacheDir : Option (List (String × ImageBytes))
  index : Option (List (List ℚ))
  product_metadata : List (String × ProductMetadata)
  indexed_urls : List (String × String)
  faiss_to_product : List String
deriving DecidableEq

/-- Engine state right after `__init__`: cache directory created empty,
no index, empty dicts. -/
def initState : EngineState :=
  { cacheDir := some []
    index := none
    product_metadata := []
    indexed_urls := []
    faiss_to_product := [] }

/-- `get_indexed_count` (lines 255-257): `len(self.product_metadata)`. -/
def get_indexed_count (s : EngineState) : Nat :=
  s.product_metadata.length

/-- `_get_cache_path` (lines 78-81): `cache_dir / (md5(url) ++ ".jpg")`. -/
def get_cache_path (env : Env) (url : String) : String :=
  env.md5 url ++ ".jpg"

/-- Result of one `_download_image` call: the engine state afterwards, the
returned image (`none` when the Python function returns `None`), and how many
network requests were issued. -/
structure FetchOutcome where
  state : EngineState
  image : Option Image
  netCalls : Nat
deriving DecidableEq

/-- `_download_image` (lines 83-110).  Cache hit: decode the stored bytes,
no network.  Cache miss: one network request; on success the raw bytes are
written to the cache path before decoding (so a decode failure still leaves
the bytes cached); any exception (network failure, bad status, failed cache
write because the directory is absent, decode failure) is caught and `None`
is returned. -/
def download_image (env : Env) (s : EngineState) (url : String) : FetchOutcome :=
  match s.cacheDir with
  | some entries =>
    match dictGet entries (get_cache_path env url) with
    | some stored => ⟨s, env.decode stored, 0⟩
    | none =>
      match env.network url with
      | none => ⟨s, none, 1⟩
      | some bytes =>
        ⟨{ s with cacheDir := some (dictInsert entries (get_cache_path env url) bytes) },
          env.decode bytes, 1⟩
  | none =>
    -- the cache path cannot exist without the directory; after a successful
    -- download, `open(cache_path, 'wb')` raises and the handler returns None
    match env.network url with
    | none => ⟨s, none, 1⟩
    | some _ => ⟨s, none, 1⟩

/-- `clear_cache` (lines 259-267): `shutil.rmtree` then `mkdir`.  When the
directory is absent, `rmtree` raises, the `except` swallows the error and the
`mkdir` line is never reached, so no directory is recreated.  No exception
escapes in either case. -/
def clear_cache (s : EngineState) : EngineState :=
  match s.cacheDir with
  | some _ => { s with cacheDir := some [] }
  | none => s

/-- One iteration of the `sync_products` loop body (lines 145-178) for one
product: skip when there is no image url (`if not producto.imagenUrl`, which
is also true for the empty string), skip when download or feature extraction
fails, and otherwise record metadata and the url-hash mapping and hand back
the feature vector paired with the product id.  The state is threaded because
skipped entries can still write to the image cache. -/
def processEntry (env : Env) (s : EngineState) (p : FirestoreProduct) :
    EngineState × Option (List ℚ × String) :=
  match p.imagenUrl with
  | none => (s, none)
  | some url =>
    if url = "" then (s, none)
    else
      let fetched := download_image env s url
      match fetched.image with
      | none => (fetched.state, none)
      | some img =>
        match env.embed img with
        | none => (fetched.state, none)
        | some features =>
          let md : ProductMetadata :=
            { nombre := p.nombre, marca := p.marca, modelo := p.modelo
              imagen_url := url, categoria := p.categoria
              precio := p.precio, stock := p.stock }
          ({ fetched.state with
              product_metadata := dictInsert fetched.state.product_metadata p.id md
              indexed_urls := dictInsert fetched.state.indexed_urls (env.md5 url) p.id },
            some (features, p.id))

/-- The whole accumulation loop of `sync_products` (lines 145-178): the state
after every entry has been processed, together with the `features_list` and
`valid_products` accumulators (as feature/id pairs, in entry order). -/
def syncLoop (env : Env) : EngineState → List FirestoreProduct →
    EngineState × List (List ℚ × String)
  | s, [] => (s, [])
  | s, p :: rest =>
    match processEntry env s p with
    | (s', none) => syncLoop env s' rest
    | (s', some pair) =>
      let out := syncLoop env s' rest
      (out.1, pair :: out.2)

/-- Whether `np.vstack(features_list)` succeeds: all accumulated vectors must
share one length (line 185; a mismatch raises out of `sync_products`). -/
def allSameLength : List (List ℚ) → Bool
  | [] => true
  | v :: rest => rest.all (fun w => w.length = v.length)

/-- Result of one `sync_products` call: the engine state afterwards, the
Python return value (always `None` — the function has only bare `return`s),
and whether an exception escaped (the only uncaught one is the `np.vstack`
dimension mismatch). -/
structure SyncOutcome where
  state : EngineState
  report : Option SyncReport
  raised : Bool
deriving DecidableEq

/-- `sync_products` (lines 138-195).  Runs the accumulation loop; with no
accumulated features it returns early (line 180-182) leaving index, metadata
and mapping fields as the loop left them; otherwise it stacks the features
(raising on mismatched dimensions, with the loop's dict writes already
applied) and on success replaces `self.index` with the new matrix and
`self.faiss_to_product` with the valid products' ids. -/
def sync_products (env : Env) (s : EngineState) (productos : List FirestoreProduct) :
    SyncOutcome :=
  if (syncLoop env s productos).2.isEmpty then
    ⟨(syncLoop env s productos).1, none, false⟩
  else if allSameLength ((syncLoop env s productos).2.map Prod.fst) then
    ⟨{ (syncLoop env s productos).1 with
        index := some ((syncLoop env s productos).2.map Prod.fst)
        faiss_to_product := (syncLoop env s productos).2.map Prod.snd },
      none, false⟩
  else ⟨(syncLoop env s productos).1, none, true⟩

/-- Inner product of two embeddings (FAISS `IndexFlatIP` similarity). -/
def dot (a b : List ℚ) : ℚ :=
  (List.zipWith (· * ·) a b).sum

/-- The candidate order of the vector index's search results: descending
inner-product score, ties broken by ascending slot position.  FAISS is an
external library; its flat exact search is modelled at the boundary the spec
describes (§4.3). -/
def candOrder (a b : Nat × ℚ) : Prop :=
  b.2 < a.2 ∨ (a.2 = b.2 ∧ a.1 ≤ b.1)

instance : DecidableRel candOrder := fun a b => by
  unfold candOrder; exact inferInstance

instance : IsTotal (Nat × ℚ) candOrder where
  total a b := by
    rcases lt_trichotomy a.2 b.2 with h | h | h
    · exact Or.inr (Or.inl h)
    · rcases Nat.le_total a.1 b.1 with hn | hn
      · exact Or.inl (Or.inr ⟨h, hn⟩)
      · exact Or.inr (Or.inr ⟨h.symm, hn⟩)
    · exact Or.inl (Or.inl h)

instance : IsTrans (Nat × ℚ) candOrder where
  trans a b c hab hbc := by
    rcases hab with hab | ⟨hab, hab'⟩
    · rcases hbc with hbc | ⟨hbc, _⟩
      · exact Or.inl (hbc.trans hab)
      · exact Or.inl (hbc ▸ hab)
    · rcases hbc with hbc | ⟨hbc, hbc'⟩
      · exact Or.inl (hab ▸ hbc)
      · exact Or.inr ⟨hab.trans hbc, hab'.trans hbc'⟩

/-- Model of `self.index.search(query_vector, k)` for a FAISS `IndexFlatIP`
holding `rows`: score every slot by inner product with the query, order by
descending score (ties by ascending slot) and return the first `k`
(slot, score) pairs. -/
def faissSearch (rows : List (List ℚ)) (q : List ℚ) (k : Nat) :
    List (Nat × ℚ) :=
  (List.insertionSort candOrder ((rows.map (dot q)).enum)).take k

/-- The ways `search_similar` can raise: no index yet (line 206), query
download failed (line 211), feature extraction failed (line 216), and the
uncaught `IndexError`/`KeyError` a stale slot or missing metadata key would
produce in the result loop (lines 231-232). -/
inductive SearchError
  | notReady
  | queryDownloadFailed
  | extractionFailed
  | indexError
  | keyError
deriving DecidableEq

/-- The `ProductResult(...)` construction of `search_similar` (lines 234-245):
the matching metadata snapshot, the candidate's score and the enumeration
rank (already 1-based here). -/
def mkResult (pid : String) (md : ProductMetadata) (score : ℚ) (rank : Nat) :
    ProductResult :=
  { product_id := pid, nombre := md.nombre, marca := md.marca
    modelo := md.modelo, imagen_url := md.imagen_url
    similarity_score := score, rank := rank
    categoria := md.categoria, precio := md.precio, stock := md.stock }

/-- The result-building loop of `search_similar` (lines 223-250):
`rank` enumerates all candidates (filtered or not), candidates below
`min_similarity` are skipped with `continue`, and the loop breaks as soon as
`top_k` results have been collected.  `acc` holds the collected results in
reverse order. -/
def buildResults (meta : List (String × ProductMetadata)) (f2p : List String)
    (min_sim : ℚ) (top_k : Nat) :
    Nat → List ProductResult → List (Nat × ℚ) →
    Except SearchError (List ProductResult)
  | _, acc, [] => .ok acc.reverse
  | rank, acc, (slot, score) :: rest =>
    if score < min_sim then
      buildResults meta f2p min_sim top_k (rank + 1) acc rest
    else
      match f2p[slot]? with
      | none => .error .indexError
      | some pid =>
        match dictGet meta pid with
        | none => .error .keyError
        | some md =>
          if top_k ≤ acc.length + 1 then
            .ok (mkResult pid md score (rank + 1) :: acc).reverse
          else
            buildResults meta f2p min_sim top_k (rank + 1)
              (mkResult pid md score (rank + 1) :: acc) rest

/-- `search_similar` (lines 197-253).  Raises when no index exists, when the
query image cannot be downloaded or decoded, or when extraction fails;
otherwise requests `min(top_k * 2, len(self.faiss_to_product))` candidates
from the index and builds the ranked, threshold-filtered result list.  The
state is returned too because the query download writes to the cache. -/
def search_similar (env : Env) (s : EngineState) (image_url : String)
    (top_k : Nat) (min_similarity : ℚ) :
    EngineState × Except SearchError (List ProductResult) :=
  match s.index with
  | none => (s, .error .notReady)
  | some rows =>
    match (download_image env s image_url).image with
    | none => ((download_image env s image_url).state, .error .queryDownloadFailed)
    | some img =>
      match env.embed img with
      | none => ((download_image env s image_url).state, .error .extractionFailed)
      | some q =>
        ((download_image env s image_url).state,
          buildResults (download_image env s image_url).state.product_metadata
            (download_image env s image_url).state.faiss_to_product
            min_similarity top_k 0 []
            (faissSearch rows q
              (min (top_k * 2)
                (download_image env s image_url).state.faiss_to_product.length)))

/-- A sequence of `sync_products` passes run against one engine. -/
def runSyncs (env : Env) : EngineState → List (List FirestoreProduct) →
    EngineState
  | s, [] => s
  | s, ps :: rest => runSyncs env (sync_products env s ps).state rest

/-- Whether one sync pass builds (and installs) a new index: at least one
entry succeeded and the accumulated vectors share one dimension. -/
def passBuilt (env : Env) (s : EngineState) (ps : List FirestoreProduct) : Bool :=
  let pairs := (syncLoop env s ps).2
  !pairs.isEmpty && allSameLength (pairs.map Prod.fst)

/-- Whether any pass of a sequence successfully builds an index. -/
def anyBuild (env : Env) : EngineState → List (List FirestoreProduct) → Bool
  | _, [] => false
  | s, ps :: rest =>
    passBuilt env s ps || anyBuild env (sync_products env s ps).state rest

/-- The ids of the products successfully embedded by one sync pass. -/
def passEmbeddedIds (env : Env) (s : EngineState) (ps : List FirestoreProduct) :
    List String :=
  (syncLoop env s ps).2.map Prod.snd

/-- All ids successfully embedded over a sequence of sync passes, in order. -/
def allEmbeddedIds (env : Env) : EngineState → List (List FirestoreProduct) →
    List String
  | _, [] => []
  | s, ps :: rest =>
    passEmbeddedIds env s ps ++ allEmbeddedIds env (sync_products env s ps).state rest

/-- Concrete oracle environment for the executable scenarios: the network
serves three urls (with pixel payloads of dimension 1, 1 and 2 after
embedding) and fails on every other url; decoding is the identity on bytes;
the extractor turns a pixel list into the corresponding rational vector; the
hash is the identity (only its determinism matters). -/
def testEnv : Env :=
  { network := fun url =>
      if url = "u1" then some [1]
      else if url = "u2" then some [2]
      else if url = "u3" then some [3, 3]
      else if url = "u0" then some []
      else none
    decode := fun bytes => some bytes
    embed := fun img => some (img.map (fun n => (n : ℚ)))
    md5 := fun url => url }

/-- A product with id "a" whose image is served at "u1". -/
def prodA : FirestoreProduct :=
  { id := "a", nombre := "A", imagenUrl := some "u1" }

/-- A second product that reuses the id "a" but a different image url. -/
def prodA2 : FirestoreProduct :=
  { id := "a", nombre := "A2", imagenUrl := some "u2" }

/-- A product with id "b" whose image is served at "u2". -/
def prodB : FirestoreProduct :=
  { id := "b", nombre := "B", imagenUrl := some "u2" }

/-- A product with id "c" whose image embeds with a different dimension. -/
def prodC : FirestoreProduct :=
  { id := "c", nombre := "C", imagenUrl := some "u3" }

/-- A product with no image reference at all. -/
def prodNoImage : FirestoreProduct :=
  { id := "p1", nombre := "NoImage" }

/-- A product whose image url the network always fails to serve. -/
def prodBadFetch : FirestoreProduct :=
  { id := "p2", nombre := "BadFetch", imagenUrl := some "bad" }

/-- The valid product of the three-entry sync scenario. -/
def prodGood : FirestoreProduct :=
  { id := "p3", nombre := "Good", imagenUrl := some "u1" }

/-- The spec's three-entry sync scenario: one entry with no image reference,
one whose fetch fails, one valid. -/
def scenarioEntries : List FirestoreProduct :=
  [prodNoImage, prodBadFetch, prodGood]

/-- An engine state whose cache directory has been removed externally. -/
def sNoCache : EngineState :=
  { initState with cacheDir := none }

/-- Engine state after one successful sync pass over `[prodA]`: a one-row
index, slot mapping `["a"]`, one metadata entry and the image of "u1" cached. -/
def sAfterA : EngineState :=
  (sync_products testEnv initState [prodA]).state

/-- The metadata snapshot recorded for `prodA`. -/
def mdA : ProductMetadata :=
  { nombre := "A", marca := none, modelo := none, imagen_url := "u1"
    categoria := none, precio := none, stock := none }

/-! ### Dictionary lemmas -/

theorem dictGet_insert_self {β : Type} (d : List (String × β)) (k : String)
    (v : β) : dictGet (dictInsert d k v) k = some v := by
  induction d with
  | nil => simp [dictInsert, dictGet]
  | cons hd tl ih =>
    obtain ⟨k', v'⟩ := hd
    by_cases h : k' = k
    · subst h; simp [dictInsert, dictGet]
    · simp [dictInsert, dictGet, h, ih]

theorem mem_dictKeys_insert {β : Type} (d : List (String × β)) (k : String)
    (v : β) (x : String) :
    x ∈ dictKeys (dictInsert d k v) ↔ x ∈ dictKeys d ∨ x = k := by
  induction d with
  | nil => simp [dictInsert, dictKeys]
  | cons hd tl ih =>
    obtain ⟨k', v'⟩ := hd
    by_cases h : k' = k
    · subst h
      simp [dictInsert, dictKeys]
      tauto
    · simp [dictInsert, dictKeys, h] at ih ⊢
      tauto

theorem nodup_dictKeys_insert {β : Type} (d : List (String × β)) (k : String)
    (v : β) (h : (dictKeys d).Nodup) : (dictKeys (dictInsert d k v)).Nodup := by
  induction d with
  | nil => simp [dictInsert, dictKeys]
  | cons hd tl ih =>
    obtain ⟨k', v'⟩ := hd
    simp only [dictKeys, List.map_cons, List.nodup_cons] at h
    by_cases hk : k' = k
    · subst hk
      simpa [dictInsert, dictKeys] using h
    · have := ih h.2
      simp only [dictInsert, if_neg hk, dictKeys, List.map_cons, List.nodup_cons]
      refine ⟨fun hmem => ?_, this⟩
      rcases (mem_dictKeys_insert tl k v k').1 hmem with hin | heq
      · exact h.1 hin
      · exact hk heq

/-! ### Frame lemmas for the fetcher and the sync loop -/

/-- `_download_image` only ever touches the cache directory. -/
theorem download_image_frame (env : Env) (s : EngineState) (url : String) :
    (download_image env s url).state.index = s.index
    ∧ (download_image env s url).state.faiss_to_product = s.faiss_to_product
    ∧ (download_image env s url).state.product_metadata = s.product_metadata
    ∧ (download_image env s url).state.indexed_urls = s.indexed_urls := by
  rcases hdir : s.cacheDir with _ | entries
  · rcases hnet : env.network url with _ | bytes <;>
      simp [download_image, hdir, hnet]
  · rcases hget : dictGet entries (get_cache_path env url) with _ | stored
    · rcases hnet : env.network url with _ | bytes <;>
        simp [download_image, hdir, hget, hnet]
    · simp [download_image, hdir, hget]

theorem download_image_index (env : Env) (s : EngineState) (url : String) :
    (download_image env s url).state.index = s.index :=
  (download_image_frame env s url).1

theorem download_image_f2p (env : Env) (s : EngineState) (url : String) :
    (download_image env s url).state.faiss_to_product = s.faiss_to_product :=
  (download_image_frame env s url).2.1

theorem download_image_meta (env : Env) (s : EngineState) (url : String) :
    (download_image env s url).state.product_metadata = s.product_metadata :=
  (download_image_frame env s url).2.2.1

theorem download_image_urls (env : Env) (s : EngineState) (url : String) :
    (download_image env s url).state.indexed_urls = s.indexed_urls :=
  (download_image_frame env s url).2.2.2

/-- Disjunctive characterization of one loop iteration: either the entry is
skipped and only the cache can have changed, or it succeeds and the new state
is the post-download state with the metadata and url-map insertions. -/
theorem processEntry_char (env : Env) (s : EngineState) (p : FirestoreProduct) :
    ((processEntry env s p).2 = none
      ∧ (processEntry env s p).1.index = s.index
      ∧ (processEntry env s p).1.faiss_to_product = s.faiss_to_product
      ∧ (processEntry env s p).1.product_metadata = s.product_metadata
      ∧ (processEntry env s p).1.indexed_urls = s.indexed_urls)
    ∨ (∃ url features md,
        p.imagenUrl = some url
        ∧ processEntry env s p =
            ({ (download_image env s url).state with
                product_metadata :=
                  dictInsert s.product_metadata p.id md
                indexed_urls :=
                  dictInsert s.indexed_urls (env.md5 url) p.id },
              some (features, p.id))) := by
  rcases hurl : p.imagenUrl with _ | url
  · left
    simp [processEntry, hurl]
  · by_cases hempty : url = ""
    · left
      simp [processEntry, hurl, hempty]
    · rcases himg : (download_image env s url).image with _ | img
      · left
        simp [processEntry, hurl, hempty, himg, download_image_index,
          download_image_f2p, download_image_meta, download_image_urls]
      · rcases hfeat : env.embed img with _ | features
        · left
          simp [processEntry, hurl, hempty, himg, hfeat, download_image_index,
            download_image_f2p, download_image_meta, download_image_urls]
        · right
          refine ⟨url, features,
            { nombre := p.nombre, marca := p.marca, modelo := p.modelo
              imagen_url := url, categoria := p.categoria
              precio := p.precio, stock := p.stock }, rfl, ?_⟩
          simp [processEntry, hurl, hempty, himg, hfeat,
            download_image_meta, download_image_urls]

theorem processEntry_index (env : Env) (s : EngineState) (p : FirestoreProduct) :
    (processEntry env s p).1.index = s.index := by
  rcases processEntry_char env s p with ⟨_, h, _⟩ | ⟨url, features, md, _, h⟩
  · exact h
  · rw [h, download_image_index]

theorem processEntry_f2p (env : Env) (s : EngineState) (p : FirestoreProduct) :
    (processEntry env s p).1.faiss_to_product = s.faiss_to_product := by
  rcases processEntry_char env s p with ⟨_, _, h, _⟩ | ⟨url, features, md, _, h⟩
  · exact h
  · rw [h, download_image_f2p]

theorem processEntry_skip (env : Env) (s : EngineState) (p : FirestoreProduct)
    (hskip : (processEntry env s p).2 = none) :
    (processEntry env s p).1.product_metadata = s.product_metadata
    ∧ (processEntry env s p).1.indexed_urls = s.indexed_urls := by
  rcases processEntry_char env s p with ⟨_, _, _, h1, h2⟩ | ⟨url, features, md, _, h⟩
  · exact ⟨h1, h2⟩
  · rw [h] at hskip
    exact absurd hskip (by simp)

theorem processEntry_pair_id (env : Env) (s : EngineState) (p : FirestoreProduct)
    (pr : List ℚ × String) (hpr : (processEntry env s p).2 = some pr) :
    pr.2 = p.id := by
  rcases processEntry_char env s p with ⟨h, _⟩ | ⟨url, features, md, _, h⟩
  · rw [h] at hpr; cases hpr
  · rw [h] at hpr
    simp at hpr
    rw [← hpr]

theorem processEntry_meta_mem (env : Env) (s : EngineState) (p : FirestoreProduct)
    (x : String) :
    x ∈ dictKeys (processEntry env s p).1.product_metadata ↔
      (x ∈ dictKeys s.product_metadata
        ∨ ((processEntry env s p).2.isSome ∧ x = p.id)) := by
  rcases processEntry_char env s p with ⟨hn, _, _, h1, _⟩ | ⟨url, features, md, _, h⟩
  · rw [h1, hn]
    simp
  · rw [h]
    simp [mem_dictKeys_insert]

theorem processEntry_meta_nodup (env : Env) (s : EngineState) (p : FirestoreProduct)
    (h : (dictKeys s.product_metadata).Nodup) :
    (dictKeys (processEntry env s p).1.product_metadata).Nodup := by
  rcases processEntry_char env s p with ⟨_, _, _, h1, _⟩ | ⟨url, features, md, _, hEq⟩
  · rw [h1]; exact h
  · rw [hEq]
    exact nodup_dictKeys_insert _ _ _ h

theorem processEntry_urls_mem (env : Env) (s : EngineState) (p : FirestoreProduct)
    (x : String) (h : x ∈ dictKeys s.indexed_urls) :
    x ∈ dictKeys (processEntry env s p).1.indexed_urls := by
  rcases processEntry_char env s p with ⟨_, _, _, _, h2⟩ | ⟨url, features, md, _, hEq⟩
  · rw [h2]; exact h
  · rw [hEq]
    exact (mem_dictKeys_insert _ _ _ _).2 (Or.inl h)

theorem syncLoop_index (env : Env) (s : EngineState) (ps : List FirestoreProduct) :
    (syncLoop env s ps).1.index = s.index := by
  induction ps generalizing s with
  | nil => rfl
  | cons p rest ih =>
    rcases hpe : processEntry env s p with ⟨s', opt⟩
    have hidx : s'.index = s.index := by
      have := processEntry_index env s p
      rw [hpe] at this
      exact this
    rcases opt with _ | pair <;> simp [syncLoop, hpe, ih, hidx]

theorem syncLoop_f2p (env : Env) (s : EngineState) (ps : List FirestoreProduct) :
    (syncLoop env s ps).1.faiss_to_product = s.faiss_to_product := by
  induction ps generalizing s with
  | nil => rfl
  | cons p rest ih =>
    rcases hpe : processEntry env s p with ⟨s', opt⟩
    have hf : s'.faiss_to_product = s.faiss_to_product := by
      have := processEntry_f2p env s p
      rw [hpe] at this
      exact this
    rcases opt with _ | pair <;> simp [syncLoop, hpe, ih, hf]

theorem syncLoop_skipall (env : Env) (s : EngineState) (ps : List FirestoreProduct)
    (h : (syncLoop env s ps).2 = []) :
    (syncLoop env s ps).1.product_metadata = s.product_metadata
    ∧ (syncLoop env s ps).1.indexed_urls = s.indexed_urls := by
  induction ps generalizing s with
  | nil => exact ⟨rfl, rfl⟩
  | cons p rest ih =>
    rcases hpe : processEntry env s p with ⟨s', opt⟩
    rcases opt with _ | pair
    · have hloop : syncLoop env s (p :: rest) = syncLoop env s' rest := by
        simp [syncLoop, hpe]
      rw [hloop] at h ⊢
      have hskip := processEntry_skip env s p (by rw [hpe])
      rw [hpe] at hskip
      obtain ⟨hm, hu⟩ := ih s' h
      exact ⟨hm.trans hskip.1, hu.trans hskip.2⟩
    · exfalso
      have : (syncLoop env s (p :: rest)).2 = pair :: (syncLoop env s' rest).2 := by
        simp [syncLoop, hpe]
      rw [this] at h
      cases h

theorem syncLoop_meta_mem (env : Env) (s : EngineState) (ps : List FirestoreProduct)
    (x : String) :
    x ∈ dictKeys (syncLoop env s ps).1.product_metadata ↔
      (x ∈ dictKeys s.product_metadata
        ∨ x ∈ (syncLoop env s ps).2.map Prod.snd) := by
  induction ps generalizing s with
  | nil => simp [syncLoop]
  | cons p rest ih =>
    rcases hpe : processEntry env s p with ⟨s', opt⟩
    have hmem := processEntry_meta_mem env s p x
    rw [hpe] at hmem
    rcases opt with _ | pair
    · have hloop : syncLoop env s (p :: rest) = syncLoop env s' rest := by
        simp [syncLoop, hpe]
      rw [hloop]
      simp only [Option.isSome_none, Bool.false_eq_true, false_and, or_false] at hmem
      rw [ih s', hmem]
    · have h1 : (syncLoop env s (p :: rest)).1 = (syncLoop env s' rest).1 := by
        simp [syncLoop, hpe]
      have h2 : (syncLoop env s (p :: rest)).2 = pair :: (syncLoop env s' rest).2 := by
        simp [syncLoop, hpe]
      have hid : pair.2 = p.id := processEntry_pair_id env s p pair (by rw [hpe])
      rw [h1, h2, ih s']
      simp only [Option.isSome_some, true_and] at hmem
      simp [hmem, hid]
      tauto

theorem syncLoop_meta_nodup (env : Env) (s : EngineState) (ps : List FirestoreProduct)
    (h : (dictKeys s.product_metadata).Nodup) :
    (dictKeys (syncLoop env s ps).1.product_metadata).Nodup := by
  induction ps generalizing s with
  | nil => exact h
  | cons p rest ih =>
    rcases hpe : processEntry env s p with ⟨s', opt⟩
    have hnd := processEntry_meta_nodup env s p h
    rw [hpe] at hnd
    rcases opt with _ | pair
    · have hloop : syncLoop env s (p :: rest) = syncLoop env s' rest := by
        simp [syncLoop, hpe]
      rw [hloop]
      exact ih s' hnd
    · have h1 : (syncLoop env s (p :: rest)).1 = (syncLoop env s' rest).1 := by
        simp [syncLoop, hpe]
      rw [h1]
      exact ih s' hnd

theorem syncLoop_urls_mem (env : Env) (s : EngineState) (ps : List FirestoreProduct)
    (x : String) (h : x ∈ dictKeys s.indexed_urls) :
    x ∈ dictKeys (syncLoop env s ps).1.indexed_urls := by
  induction ps generalizing s with
  | nil => exact h
  | cons p rest ih =>
    rcases hpe : processEntry env s p with ⟨s', opt⟩
    have hu := processEntry_urls_mem env s p x h
    rw [hpe] at hu
    rcases opt with _ | pair
    · have hloop : syncLoop env s (p :: rest) = syncLoop env s' rest := by
        simp [syncLoop, hpe]
      rw [hloop]
      exact ih s' hu
    · have h1 : (syncLoop env s (p :: rest)).1 = (syncLoop env s' rest).1 := by
        simp [syncLoop, hpe]
      rw [h1]
      exact ih s' hu

theorem syncLoop_meta_mono (env : Env) (s : EngineState) (ps : List FirestoreProduct)
    (x : String) (h : x ∈ dictKeys s.product_metadata) :
    x ∈ dictKeys (syncLoop env s ps).1.product_metadata :=
  (syncLoop_meta_mem env s ps x).2 (Or.inl h)

/-! ### Lemmas about one sync pass and sequences of passes -/

theorem sync_products_report (env : Env) (s : EngineState)
    (ps : List FirestoreProduct) : (sync_products env s ps).report = none := by
  unfold sync_products
  split
  · rfl
  · split <;> rfl

theorem sync_products_meta (env : Env) (s : EngineState)
    (ps : List FirestoreProduct) :
    (sync_products env s ps).state.product_metadata =
      (syncLoop env s ps).1.product_metadata := by
  unfold sync_products
  split
  · rfl
  · split <;> rfl

theorem sync_products_urls (env : Env) (s : EngineState)
    (ps : List FirestoreProduct) :
    (sync_products env s ps).state.indexed_urls =
      (syncLoop env s ps).1.indexed_urls := by
  unfold sync_products
  split
  · rfl
  · split <;> rfl

theorem sync_products_built (env : Env) (s : EngineState)
    (ps : List FirestoreProduct) (h : passBuilt env s ps = true) :
    (sync_products env s ps).state.index =
        some ((syncLoop env s ps).2.map Prod.fst)
    ∧ (sync_products env s ps).state.faiss_to_product =
        (syncLoop env s ps).2.map Prod.snd
    ∧ (sync_products env s ps).raised = false := by
  unfold passBuilt at h
  simp only [Bool.and_eq_true, Bool.not_eq_true'] at h
  unfold sync_products
  rw [if_neg (by simp [h.1]), if_pos h.2]
  exact ⟨rfl, rfl, rfl⟩

theorem sync_products_notBuilt (env : Env) (s : EngineState)
    (ps : List FirestoreProduct) (h : passBuilt env s ps = false) :
    (sync_products env s ps).state.index = s.index
    ∧ (sync_products env s ps).state.faiss_to_product = s.faiss_to_product := by
  unfold passBuilt at h
  simp only [Bool.and_eq_false_iff, Bool.not_eq_false'] at h
  unfold sync_products
  rcases h with h | h
  · rw [if_pos h]
    exact ⟨syncLoop_index env s ps, syncLoop_f2p env s ps⟩
  · by_cases he : (syncLoop env s ps).2.isEmpty
    · rw [if_pos he]
      exact ⟨syncLoop_index env s ps, syncLoop_f2p env s ps⟩
    · rw [if_neg he, if_neg (by simp [h])]
      exact ⟨syncLoop_index env s ps, syncLoop_f2p env s ps⟩

theorem sync_products_raised (env : Env) (s : EngineState)
    (ps : List FirestoreProduct) (h : (sync_products env s ps).raised = true) :
    (sync_products env s ps).state.index = s.index
    ∧ (sync_products env s ps).state.faiss_to_product = s.faiss_to_product := by
  rcases hb : passBuilt env s ps with _ | _
  · exact sync_products_notBuilt env s ps hb
  · exact absurd h (by rw [(sync_products_built env s ps hb).2.2]; simp)

theorem runSyncs_index_none (env : Env) (s : EngineState)
    (passes : List (List FirestoreProduct)) :
    (runSyncs env s passes).index = none ↔
      (s.index = none ∧ anyBuild env s passes = false) := by
  induction passes generalizing s with
  | nil => simp [runSyncs, anyBuild]
  | cons ps rest ih =>
    rw [runSyncs, anyBuild, ih]
    rcases hb : passBuilt env s ps with _ | _
    · rw [(sync_products_notBuilt env s ps hb).1]
      simp
    · rw [(sync_products_built env s ps hb).1]
      simp

theorem runSyncs_meta_mem (env : Env) (s : EngineState)
    (passes : List (List FirestoreProduct)) (x : String) :
    x ∈ dictKeys (runSyncs env s passes).product_metadata ↔
      (x ∈ dictKeys s.product_metadata ∨ x ∈ allEmbeddedIds env s passes) := by
  induction passes generalizing s with
  | nil => simp [runSyncs, allEmbeddedIds]
  | cons ps rest ih =>
    rw [runSyncs, allEmbeddedIds, ih]
    have hpass : x ∈ dictKeys (sync_products env s ps).state.product_metadata ↔
        (x ∈ dictKeys s.product_metadata ∨ x ∈ passEmbeddedIds env s ps) := by
      rw [sync_products_meta, passEmbeddedIds]
      exact syncLoop_meta_mem env s ps x
    rw [hpass]
    simp [or_assoc, List.mem_append]

theorem runSyncs_meta_nodup (env : Env) (s : EngineState)
    (passes : List (List FirestoreProduct))
    (h : (dictKeys s.product_metadata).Nodup) :
    (dictKeys (runSyncs env s passes).product_metadata).Nodup := by
  induction passes generalizing s with
  | nil => exact h
  | cons ps rest ih =>
    rw [runSyncs]
    refine ih _ ?_
    rw [sync_products_meta]
    exact syncLoop_meta_nodup env s ps h

/-! ### Lemmas about the vector-index search and the result loop -/

theorem candOrder_snd_le {a b : Nat × ℚ} (h : candOrder a b) : b.2 ≤ a.2 := by
  rcases h with h | ⟨h, _⟩
  · exact le_of_lt h
  · exact le_of_eq h.symm

theorem faissSearch_sorted (rows : List (List ℚ)) (q : List ℚ) (k : Nat) :
    List.Sorted candOrder (faissSearch rows q k) :=
  List.Pairwise.sublist (List.take_sublist k _)
    (List.sorted_insertionSort candOrder ((rows.map (dot q)).enum))

theorem faissSearch_length (rows : List (List ℚ)) (q : List ℚ) (k : Nat) :
    (faissSearch rows q k).length ≤ k := by
  unfold faissSearch
  rw [List.length_take]
  exact min_le_left _ _

theorem buildResults_error (meta : List (String × ProductMetadata))
    (f2p : List String) (m : ℚ) (k : Nat) :
    ∀ (cands : List (Nat × ℚ)) (rank : Nat) (acc : List ProductResult)
      (e : SearchError),
      buildResults meta f2p m k rank acc cands = .error e →
      e = .indexError ∨ e = .keyError := by
  intro cands
  induction cands with
  | nil =>
    intro rank acc e h
    simp [buildResults] at h
  | cons c rest ih =>
    intro rank acc e h
    obtain ⟨slot, score⟩ := c
    rw [buildResults] at h
    by_cases hlt : score < m
    · rw [if_pos hlt] at h
      exact ih _ _ _ h
    · rw [if_neg hlt] at h
      split at h
      · simp at h
        exact Or.inl h.symm
      · split at h
        · simp at h
          exact Or.inr h.symm
        · split at h
          · simp at h
          · exact ih _ _ _ h

theorem buildResults_length (meta : List (String × ProductMetadata))
    (f2p : List String) (m : ℚ) (k : Nat) :
    ∀ (cands : List (Nat × ℚ)) (rank : Nat) (acc : List ProductResult)
      (res : List ProductResult),
      buildResults meta f2p m k rank acc cands = .ok res →
      res.length ≤ acc.length + cands.length
      ∧ res.length ≤ max k (acc.length + 1) := by
  intro cands
  induction cands with
  | nil =>
    intro rank acc res h
    simp [buildResults] at h
    subst h
    exact ⟨by simp, by simp⟩
  | cons c rest ih =>
    intro rank acc res h
    obtain ⟨slot, score⟩ := c
    rw [buildResults] at h
    by_cases hlt : score < m
    · rw [if_pos hlt] at h
      obtain ⟨h1, h2⟩ := ih _ _ _ h
      refine ⟨?_, h2⟩
      simp only [List.length_cons]
      omega
    · rw [if_neg hlt] at h
      split at h
      · cases h
      · split at h
        · cases h
        · split at h
          · simp only [Except.ok.injEq] at h
            subst h
            refine ⟨?_, ?_⟩
            · simp only [List.length_reverse, List.length_cons]
              omega
            · simp only [List.length_reverse, List.length_cons]
              exact Nat.le_max_right _ _
          · rename_i hfull
            obtain ⟨h1, h2⟩ := ih _ _ _ h
            refine ⟨?_, ?_⟩
            · simp only [List.length_cons] at h1 ⊢
              omega
            · simp only [List.length_cons] at h2
              have hmax : max k (acc.length + 1 + 1) = k :=
                Nat.max_eq_left (by omega)
              rw [hmax] at h2
              exact h2.trans (Nat.le_max_left _ _)

theorem buildResults_scores (meta : List (String × ProductMetadata))
    (f2p : List String) (m : ℚ) (k : Nat) :
    ∀ (cands : List (Nat × ℚ)) (rank : Nat) (acc : List ProductResult)
      (res : List ProductResult),
      (∀ r ∈ acc, m ≤ r.similarity_score) →
      buildResults meta f2p m k rank acc cands = .ok res →
      ∀ r ∈ res, m ≤ r.similarity_score := by
  intro cands
  induction cands with
  | nil =>
    intro rank acc res hacc h r hr
    simp [buildResults] at h
    subst h
    exact hacc r (by simpa using hr)
  | cons c rest ih =>
    intro rank acc res hacc h r hr
    obtain ⟨slot, score⟩ := c
    rw [buildResults] at h
    by_cases hlt : score < m
    · rw [if_pos hlt] at h
      exact ih _ _ _ hacc h r hr
    · rw [if_neg hlt] at h
      have hsc : m ≤ score := le_of_not_lt hlt
      split at h
      · cases h
      · split at h
        · cases h
        · split at h
          · simp only [Except.ok.injEq] at h
            subst h
            simp only [List.mem_reverse, List.mem_cons] at hr
            rcases hr with hr | hr
            · subst hr
              exact hsc
            · exact hacc r hr
          · refine ih _ _ _ ?_ h r hr
            intro r' hr'
            rcases List.mem_cons.1 hr' with hr' | hr'
            · subst hr'
              exact hsc
            · exact hacc r' hr'

theorem buildResults_allBelow (meta : List (String × ProductMetadata))
    (f2p : List String) (m : ℚ) (k : Nat) :
    ∀ (cands : List (Nat × ℚ)) (rank : Nat) (acc : List ProductResult),
      (∀ c ∈ cands, c.2 < m) →
      buildResults meta f2p m k rank acc cands = .ok acc.reverse := by
  intro cands
  induction cands with
  | nil =>
    intro rank acc _
    rfl
  | cons c rest ih =>
    intro rank acc hbelow
    obtain ⟨slot, score⟩ := c
    rw [buildResults,
      if_pos (by simpa using hbelow (slot, score) (List.mem_cons_self _ _))]
    exact ih _ _ (fun c hc => hbelow c (List.mem_cons_of_mem _ hc))

/-- On a candidate list sorted by descending score (ascending slot on ties)
the result loop returns, appended after the accumulator, a run of results
whose 1-based ranks are consecutive starting at `rank + 1`, whose scores are
non-increasing, and whose scores all come from the candidate list.  (Since
the filtered-out candidates form a suffix of a sorted list, skipping them
never creates a rank gap.) -/
theorem buildResults_sorted_spec (meta : List (String × ProductMetadata))
    (f2p : List String) (m : ℚ) (k : Nat) :
    ∀ (cands : List (Nat × ℚ)) (rank : Nat) (acc : List ProductResult)
      (res : List ProductResult),
      List.Sorted candOrder cands →
      buildResults meta f2p m k rank acc cands = .ok res →
      ∃ extra, res = acc.reverse ++ extra
        ∧ extra.map ProductResult.rank = List.range' (rank + 1) extra.length
        ∧ List.Chain' (fun a b => b.similarity_score ≤ a.similarity_score) extra
        ∧ ∀ x ∈ extra, ∃ c ∈ cands, x.similarity_score = c.2 := by
  intro cands
  induction cands with
  | nil =>
    intro rank acc res _ h
    simp [buildResults] at h
    subst h
    exact ⟨[], by simp, rfl, List.chain'_nil, by simp⟩
  | cons c rest ih =>
    intro rank acc res hsorted h
    obtain ⟨slot, score⟩ := c
    have hhead := (List.sorted_cons.1 hsorted).1
    have htail := (List.sorted_cons.1 hsorted).2
    rw [buildResults] at h
    by_cases hlt : score < m
    · rw [if_pos hlt] at h
      have hallb : ∀ c ∈ rest, c.2 < m := fun c hc =>
        lt_of_le_of_lt (candOrder_snd_le (hhead c hc)) hlt
      rw [buildResults_allBelow meta f2p m k rest (rank + 1) acc hallb] at h
      simp at h
      subst h
      exact ⟨[], by simp, rfl, List.chain'_nil, by simp⟩
    · rw [if_neg hlt] at h
      split at h
      · cases h
      · rename_i pid hpid
        split at h
        · cases h
        · rename_i md hmd
          split at h
          · simp only [Except.ok.injEq] at h
            subst h
            refine ⟨[mkResult pid md score (rank + 1)], by simp, ?_, ?_, ?_⟩
            · simp [mkResult]
            · exact List.chain'_singleton _
            · intro x hx
              simp at hx
              subst hx
              exact ⟨(slot, score), List.mem_cons_self _ _, rfl⟩
          · obtain ⟨extra, hres, hranks, hchain, hmem⟩ :=
              ih (rank + 1) (mkResult pid md score (rank + 1) :: acc) res htail h
            refine ⟨mkResult pid md score (rank + 1) :: extra, ?_, ?_, ?_, ?_⟩
            · rw [hres]
              simp
            · simp only [List.map_cons, List.length_cons]
              rw [List.range'_succ]
              exact congrArg (fun l => (rank + 1) :: l) hranks
            · rw [List.chain'_cons']
              refine ⟨?_, hchain⟩
              intro y hy
              obtain ⟨c, hc, hcs⟩ := hmem y (List.mem_of_mem_head? hy)
              rw [hcs]
              exact candOrder_snd_le (hhead c hc)
            · intro x hx
              rcases List.mem_cons.1 hx with hx | hx
              · subst hx
                exact ⟨(slot, score), List.mem_cons_self _ _, rfl⟩
              · obtain ⟨c, hc, hcs⟩ := hmem x hx
                exact ⟨c, List.mem_cons_of_mem _ hc, hcs⟩

theorem search_notReady_iff (env : Env) (s : EngineState) (url : String)
    (top_k : Nat) (m : ℚ) :
    (search_similar env s url top_k m).2 = .error .notReady ↔ s.index = none := by
  rcases hidx : s.index with _ | rows
  · simp [search_similar, hidx]
  · simp only [search_similar, hidx]
    rcases himg : (download_image env s url).image with _ | img
    · simp [himg]
    · rcases hemb : env.embed img with _ | q
      · simp [himg, hemb]
      · simp only [himg, hemb]
        constructor
        · intro h
          rcases buildResults_error _ _ _ _ _ _ _ _ h with h' | h' <;> cases h'
        · intro h
          cases h

theorem search_dlFail (env : Env) (s : EngineState) (url : String)
    (top_k : Nat) (m : ℚ) (rows : List (List ℚ))
    (hidx : s.index = some rows)
    (himg : (download_image env s url).image = none) :
    (search_similar env s url top_k m).2 = .error .queryDownloadFailed := by
  simp [search_similar, hidx, himg]

theorem search_embedFail (env : Env) (s : EngineState) (url : String)
    (top_k : Nat) (m : ℚ) (rows : List (List ℚ)) (img : Image)
    (hidx : s.index = some rows)
    (himg : (download_image env s url).image = some img)
    (hemb : env.embed img = none) :
    (search_similar env s url top_k m).2 = .error .extractionFailed := by
  simp [search_similar, hidx, himg, hemb]

theorem search_ok_shape (env : Env) (s : EngineState) (url : String)
    (top_k : Nat) (m : ℚ) (rows : List (List ℚ)) (img : Image) (q : List ℚ)
    (hidx : s.index = some rows)
    (himg : (download_image env s url).image = some img)
    (hemb : env.embed img = some q) :
    (search_similar env s url top_k m).2 =
      buildResults s.product_metadata s.faiss_to_product m top_k 0 []
        (faissSearch rows q (min (top_k * 2) s.faiss_to_product.length)) := by
  simp [search_similar, hidx, himg, hemb, download_image_meta,
    download_image_f2p]

/-! ### Claim theorems -/

/-- C1 counterexample: a successful sync pass over two valid entries that
share one product id builds a two-row index and a two-slot mapping while the
metadata table holds a single entry, so the vector count, the metadata count
and the mapping length are not all equal. -/
theorem C1_counterexample :
    (sync_products testEnv initState [prodA, prodA2]).raised = false
    ∧ (sync_products testEnv initState [prodA, prodA2]).state.index
        = some [[1], [2]]
    ∧ (sync_products testEnv initState [prodA, prodA2]).state.faiss_to_product.length
        = 2
    ∧ ¬ (get_indexed_count (sync_products testEnv initState [prodA, prodA2]).state
        = (sync_products testEnv initState [prodA, prodA2]).state.faiss_to_product.length) := by
  decide

/-- C1 (amended): for every sync pass that successfully builds an index, the
number of index rows equals the length of the slot→identifier mapping and
every slot's identifier has a metadata record; but the metadata table's own
size can differ, since it accumulates across passes and collapses duplicate
identifiers. -/
theorem C1_sync_lengths (env : Env) (s : EngineState)
    (ps : List FirestoreProduct) (hbuilt : passBuilt env s ps = true) :
    ∃ rows, (sync_products env s ps).state.index = some rows
      ∧ rows.length = (sync_products env s ps).state.faiss_to_product.length
      ∧ ∀ pid ∈ (sync_products env s ps).state.faiss_to_product,
          pid ∈ dictKeys (sync_products env s ps).state.product_metadata := by
  obtain ⟨hidx, hf2p, _⟩ := sync_products_built env s ps hbuilt
  refine ⟨(syncLoop env s ps).2.map Prod.fst, hidx, ?_, ?_⟩
  · rw [hf2p]
    simp
  · intro pid hpid
    rw [hf2p] at hpid
    rw [sync_products_meta]
    exact (syncLoop_meta_mem env s ps pid).2 (Or.inr hpid)

/-- C1 witness: the amended statement at a concrete one-entry pass. -/
theorem C1_sync_lengths_witness :
    passBuilt testEnv initState [prodA] = true
    ∧ ∃ rows, (sync_products testEnv initState [prodA]).state.index = some rows
      ∧ rows.length
          = (sync_products testEnv initState [prodA]).state.faiss_to_product.length
      ∧ ∀ pid ∈ (sync_products testEnv initState [prodA]).state.faiss_to_product,
          pid ∈ dictKeys (sync_products testEnv initState [prodA]).state.product_metadata :=
  ⟨by decide, C1_sync_lengths testEnv initState [prodA] (by decide)⟩

/-- C2 counterexample: starting from an engine with a built index, a sync
pass whose accumulated vectors have mismatched dimensions raises; the final
state keeps the old index but its metadata table was already extended during
the failed pass, so new metadata is observable paired with the old index. -/
theorem C2_counterexample :
    (sync_products testEnv sAfterA [prodB, prodC]).raised = true
    ∧ (sync_products testEnv sAfterA [prodB, prodC]).state.index = sAfterA.index
    ∧ ¬ ((sync_products testEnv sAfterA [prodB, prodC]).state.product_metadata
        = sAfterA.product_metadata) := by
  decide

/-- C2 (amended): the index and the slot→identifier mapping are replaced
only by a successful build, so a sync pass that fails (dimension mismatch)
leaves the previously built index and mapping intact and still servable —
search reports not-ready afterwards exactly when it did before; the metadata
table and url mapping, however, are updated incrementally during the pass,
not atomically with the index. -/
theorem C2_sync_failure_keeps_index (env : Env) (s : EngineState)
    (ps : List FirestoreProduct)
    (hraised : (sync_products env s ps).raised = true) :
    (sync_products env s ps).state.index = s.index
    ∧ (sync_products env s ps).state.faiss_to_product = s.faiss_to_product
    ∧ ∀ (url : String) (top_k : Nat) (m : ℚ),
        ((search_similar env (sync_products env s ps).state url top_k m).2
            = .error .notReady
          ↔ s.index = none) := by
  obtain ⟨h1, h2⟩ := sync_products_raised env s ps hraised
  refine ⟨h1, h2, ?_⟩
  intro url top_k m
  rw [search_notReady_iff, h1]

/-- C2 witness: the amended statement at the concrete failing pass. -/
theorem C2_sync_failure_keeps_index_witness :
    (sync_products testEnv sAfterA [prodB, prodC]).raised = true
    ∧ ((sync_products testEnv sAfterA [prodB, prodC]).state.index = sAfterA.index
      ∧ (sync_products testEnv sAfterA [prodB, prodC]).state.faiss_to_product
          = sAfterA.faiss_to_product
      ∧ ∀ (url : String) (top_k : Nat) (m : ℚ),
          ((search_similar testEnv (sync_products testEnv sAfterA [prodB, prodC]).state
              url top_k m).2 = .error .notReady
            ↔ sAfterA.index = none)) :=
  ⟨by decide, C2_sync_failure_keeps_index testEnv sAfterA [prodB, prodC] (by decide)⟩

/-- C3 counterexample: on the spec's three-entry scenario `sync_products`
returns `None`, not a `SyncReport` with indexed = 1 and skipped = 2. -/
theorem C3_counterexample :
    ¬ ((sync_products testEnv initState scenarioEntries).report
        = some { indexed := 1, skipped := 2 }) := by
  decide

/-- C3 (amended): `sync_products` returns no report at all — the Python
function returns `None` on every non-raising path — and on the three-entry
scenario (one entry with no image reference, one whose fetch fails, one
valid) the pass succeeds without raising and `get_indexed_count` afterwards
returns 1. -/
theorem C3_sync_scenario :
    (∀ (env : Env) (s : EngineState) (ps : List FirestoreProduct),
        (sync_products env s ps).report = none)
    ∧ (sync_products testEnv initState scenarioEntries).raised = false
    ∧ get_indexed_count (sync_products testEnv initState scenarioEntries).state = 1 :=
  ⟨sync_products_report, by decide, by decide⟩

/-- C4: a sync pass in which zero entries succeed (empty catalog, every image
reference missing, or every fetch/extraction failing) returns early and
leaves the index, the metadata table, the url mapping and the slot mapping
exactly as they were, raising nothing; in particular an engine that never
built an index stays in the not-ready state. -/
theorem C4_empty_sync_frame (env : Env) (s : EngineState)
    (ps : List FirestoreProduct) (hzero : (syncLoop env s ps).2 = []) :
    (sync_products env s ps).state.index = s.index
    ∧ (sync_products env s ps).state.product_metadata = s.product_metadata
    ∧ (sync_products env s ps).state.indexed_urls = s.indexed_urls
    ∧ (sync_products env s ps).state.faiss_to_product = s.faiss_to_product
    ∧ (sync_products env s ps).raised = false
    ∧ (s.index = none → (sync_products env s ps).state.index = none) := by
  have hnb : passBuilt env s ps = false := by
    unfold passBuilt
    simp [hzero]
  obtain ⟨h1, h2⟩ := sync_products_notBuilt env s ps hnb
  obtain ⟨hm, hu⟩ := syncLoop_skipall env s ps hzero
  have hraise : (sync_products env s ps).raised = false := by
    unfold sync_products
    rw [if_pos (by simp [hzero])]
  exact ⟨h1, (sync_products_meta env s ps).trans hm,
    (sync_products_urls env s ps).trans hu, h2, hraise,
    fun h => h1.trans h⟩

/-- C4 witness: a pass over one entry with no image reference and one whose
fetch fails, against a fresh engine. -/
theorem C4_empty_sync_frame_witness :
    (syncLoop testEnv initState [prodNoImage, prodBadFetch]).2 = []
    ∧ ((sync_products testEnv initState [prodNoImage, prodBadFetch]).state.index
          = initState.index
      ∧ (sync_products testEnv initState [prodNoImage, prodBadFetch]).state.product_metadata
          = initState.product_metadata
      ∧ (sync_products testEnv initState [prodNoImage, prodBadFetch]).state.indexed_urls
          = initState.indexed_urls
      ∧ (sync_products testEnv initState [prodNoImage, prodBadFetch]).state.faiss_to_product
          = initState.faiss_to_product
      ∧ (sync_products testEnv initState [prodNoImage, prodBadFetch]).raised = false
      ∧ (initState.index = none →
          (sync_products testEnv initState [prodNoImage, prodBadFetch]).state.index = none)) :=
  ⟨by decide, C4_empty_sync_frame testEnv initState [prodNoImage, prodBadFetch] (by decide)⟩

/-- C5: `search_similar` fails with the not-ready error exactly when no sync
pass has ever successfully built an index; and once an index exists, failure
to fetch or decode the query image, or to embed it, aborts the whole search
with the corresponding error rather than returning any result sequence. -/
theorem C5_search_errors (env : Env) (passes : List (List FirestoreProduct))
    (url : String) (top_k : Nat) (m : ℚ) :
    ((search_similar env (runSyncs env initState passes) url top_k m).2
        = .error .notReady
      ↔ anyBuild env initState passes = false)
    ∧ (∀ (s : EngineState) (rows : List (List ℚ)), s.index = some rows →
        ((download_image env s url).image = none →
          (search_similar env s url top_k m).2 = .error .queryDownloadFailed)
        ∧ (∀ img, (download_image env s url).image = some img →
            env.embed img = none →
            (search_similar env s url top_k m).2 = .error .extractionFailed)) := by
  constructor
  · rw [search_notReady_iff, runSyncs_index_none]
    simp [initState]
  · intro s rows hidx
    exact ⟨fun himg => search_dlFail env s url top_k m rows hidx himg,
      fun img himg hemb =>
        search_embedFail env s url top_k m rows img hidx himg hemb⟩

/-- C5 witness: a fresh engine with no passes reports not-ready; an engine
whose query fetch fails aborts with the download error. -/
theorem C5_search_errors_witness :
    ((search_similar testEnv (runSyncs testEnv initState []) "bad" 5 0).2
        = .error .notReady
      ↔ anyBuild testEnv initState [] = false)
    ∧ (sAfterA.index = some [[1]]
      ∧ (download_image testEnv sAfterA "bad").image = none
      ∧ (search_similar testEnv sAfterA "bad" 5 0).2
          = .error .queryDownloadFailed) :=
  ⟨(C5_search_errors testEnv [] "bad" 5 0).1,
    by decide, by decide,
    ((C5_search_errors testEnv [] "bad" 5 0).2 sAfterA [[1]] (by decide)).1 (by decide)⟩

/-- C6: against a non-empty index, a successful search returns at most
`top_k` results, each with similarity score at least `min_similarity`; and
when every candidate scores below the threshold, the result is the empty
sequence, not an error. -/
theorem C6_search_bounds (env : Env) (s : EngineState) (url : String)
    (top_k : Nat) (m : ℚ) (rows : List (List ℚ))
    (hidx : s.index = some rows) (hne : rows ≠ []) :
    (∀ res, (search_similar env s url top_k m).2 = .ok res →
        res.length ≤ top_k ∧ ∀ r ∈ res, m ≤ r.similarity_score)
    ∧ (∀ (img : Image) (q : List ℚ),
        (download_image env s url).image = some img →
        env.embed img = some q →
        (∀ c ∈ faissSearch rows q (min (top_k * 2) s.faiss_to_product.length),
            c.2 < m) →
        (search_similar env s url top_k m).2 = .ok []) := by
  constructor
  · intro res hres
    rcases himg : (download_image env s url).image with _ | img
    · rw [search_dlFail env s url top_k m rows hidx himg] at hres
      cases hres
    · rcases hemb : env.embed img with _ | q
      · rw [search_embedFail env s url top_k m rows img hidx himg hemb] at hres
        cases hres
      · rw [search_ok_shape env s url top_k m rows img q hidx himg hemb] at hres
        constructor
        · obtain ⟨hl1, hl2⟩ := buildResults_length _ _ _ _ _ _ _ _ hres
          rcases Nat.eq_zero_or_pos top_k with h0 | hpos
          · subst h0
            have hc := faissSearch_length rows q
              (min (0 * 2) s.faiss_to_product.length)
            simp only [List.length_nil] at hl1
            omega
          · simp only [List.length_nil] at hl2
            omega
        · intro r hr
          exact buildResults_scores _ _ _ _ _ _ _ _ (by simp) hres r hr
  · intro img q himg hemb hbelow
    rw [search_ok_shape env s url top_k m rows img q hidx himg hemb]
    have := buildResults_allBelow s.product_metadata s.faiss_to_product m top_k
      (faissSearch rows q (min (top_k * 2) s.faiss_to_product.length)) 0 [] hbelow
    simpa using this

/-- C6 witness: the concrete one-product engine; any successful search at
"u1" respects the bound and the threshold, and a query ("u0") whose only
candidate scores 0, below the threshold 2, yields the empty sequence. -/
theorem C6_search_bounds_witness :
    sAfterA.index = some [[1]]
    ∧ ([[1]] : List (List ℚ)) ≠ []
    ∧ (∀ res, (search_similar testEnv sAfterA "u1" 5 2).2 = .ok res →
        res.length ≤ 5 ∧ ∀ r ∈ res, (2 : ℚ) ≤ r.similarity_score)
    ∧ (search_similar testEnv sAfterA "u0" 5 2).2 = .ok [] :=
  ⟨by decide, by decide,
    (C6_search_bounds testEnv sAfterA "u1" 5 2 [[1]] (by decide) (by decide)).1,
    (C6_search_bounds testEnv sAfterA "u0" 5 2 [[1]] (by decide) (by decide)).2
      [] [] (by decide) (by decide) (by decide)⟩

/-- C7: the vector index's candidate list is sorted by non-increasing score
with ties broken by ascending slot (deterministically), and a successful
search's returned results have non-increasing scores and carry 1-based
consecutive ranks 1, 2, ..., n with no gaps. -/
theorem C7_search_order (env : Env) (s : EngineState) (url : String)
    (top_k : Nat) (m : ℚ) (rows : List (List ℚ))
    (hidx : s.index = some rows) :
    (∀ (q : List ℚ) (k : Nat), List.Sorted candOrder (faissSearch rows q k))
    ∧ (∀ res, (search_similar env s url top_k m).2 = .ok res →
        res.map ProductResult.rank = List.range' 1 res.length
        ∧ List.Chain' (fun a b => b.similarity_score ≤ a.similarity_score) res) := by
  refine ⟨fun q k => faissSearch_sorted rows q k, ?_⟩
  intro res hres
  rcases himg : (download_image env s url).image with _ | img
  · rw [search_dlFail env s url top_k m rows hidx himg] at hres
    cases hres
  · rcases hemb : env.embed img with _ | q
    · rw [search_embedFail env s url top_k m rows img hidx himg hemb] at hres
      cases hres
    · rw [search_ok_shape env s url top_k m rows img q hidx himg hemb] at hres
      obtain ⟨extra, hre, hranks, hchain, _⟩ :=
        buildResults_sorted_spec _ _ _ _ _ 0 [] res
          (faissSearch_sorted rows q _) hres
      simp only [List.reverse_nil, List.nil_append] at hre
      subst hre
      exact ⟨hranks, hchain⟩

/-- C7 witness: the concrete one-product engine, searching for "u1". -/
theorem C7_search_order_witness :
    sAfterA.index = some [[1]]
    ∧ (∀ (q : List ℚ) (k : Nat), List.Sorted candOrder (faissSearch [[1]] q k))
    ∧ (∀ res, (search_similar testEnv sAfterA "u1" 5 0).2 = .ok res →
        res.map ProductResult.rank = List.range' 1 res.length
        ∧ List.Chain' (fun a b => b.similarity_score ≤ a.similarity_score) res) :=
  ⟨by decide,
    (C7_search_order testEnv sAfterA "u1" 5 0 [[1]] (by decide)).1,
    (C7_search_order testEnv sAfterA "u1" 5 0 [[1]] (by decide)).2⟩

/-- C8: the cache path is the hash of the reference plus ".jpg"; an uncached
fetch issues exactly one network request and persists the raw response bytes
at that path before decoding; fetching the same reference again issues no
network request, changes nothing, and returns the content decoded from the
very bytes the first fetch stored. -/
theorem C8_cache_roundTrip (env : Env) (s : EngineState) (url : String)
    (entries : List (String × ImageBytes)) (bytes : ImageBytes) (img : Image)
    (hdir : s.cacheDir = some entries)
    (hmiss : dictGet entries (get_cache_path env url) = none)
    (hnet : env.network url = some bytes)
    (hdec : env.decode bytes = some img) :
    get_cache_path env url = env.md5 url ++ ".jpg"
    ∧ (download_image env s url).netCalls = 1
    ∧ (download_image env s url).image = some img
    ∧ (download_image env s url).state.cacheDir
        = some (dictInsert entries (get_cache_path env url) bytes)
    ∧ (download_image env (download_image env s url).state url).netCalls = 0
    ∧ (download_image env (download_image env s url).state url).image
        = env.decode bytes
    ∧ (download_image env (download_image env s url).state url).state
        = (download_image env s url).state := by
  have h1 : download_image env s url =
      ⟨{ s with cacheDir :=
            some (dictInsert entries (get_cache_path env url) bytes) },
        env.decode bytes, 1⟩ := by
    simp [download_image, hdir, hmiss, hnet]
  refine ⟨rfl, ?_, ?_, ?_, ?_, ?_, ?_⟩
  · rw [h1]
  · rw [h1, hdec]
  · rw [h1]
  · rw [h1]
    simp [download_image, dictGet_insert_self]
  · rw [h1]
    simp [download_image, dictGet_insert_self]
  · rw [h1]
    simp [download_image, dictGet_insert_self]

/-- C8 witness: the round trip at a concrete uncached url. -/
theorem C8_cache_roundTrip_witness :
    initState.cacheDir = some []
    ∧ dictGet ([] : List (String × ImageBytes)) (get_cache_path testEnv "u1") = none
    ∧ testEnv.network "u1" = some [1]
    ∧ testEnv.decode [1] = some [1]
    ∧ (get_cache_path testEnv "u1" = testEnv.md5 "u1" ++ ".jpg"
      ∧ (download_image testEnv initState "u1").netCalls = 1
      ∧ (download_image testEnv initState "u1").image = some [1]
      ∧ (download_image testEnv initState "u1").state.cacheDir
          = some (dictInsert ([] : List (String × ImageBytes))
              (get_cache_path testEnv "u1") [1])
      ∧ (download_image testEnv (download_image testEnv initState "u1").state "u1").netCalls = 0
      ∧ (download_image testEnv (download_image testEnv initState "u1").state "u1").image
          = testEnv.decode [1]
      ∧ (download_image testEnv (download_image testEnv initState "u1").state "u1").state
          = (download_image testEnv initState "u1").state) :=
  ⟨by decide, by decide, by decide, by decide,
    C8_cache_roundTrip testEnv initState "u1" [] [1] [1]
      (by decide) (by decide) (by decide) (by decide)⟩

/-- C9 counterexample: calling `clear_cache` when no cache directory is
present does not recreate the directory — afterwards it still does not
exist (empty), contradicting the claim that after any call the cache
directory exists and is empty. -/
theorem C9_counterexample :
    ¬ ((clear_cache sNoCache).cacheDir = some []) := by
  decide

/-- C9 (amended): `clear_cache` never lets an error escape; with an existing
cache directory it deletes all entries and recreates the directory empty,
but when no directory is present the failed deletion is swallowed and the
recreation step is skipped, leaving the engine with no cache directory. -/
theorem C9_clear_cache (s : EngineState) :
    (∀ entries, s.cacheDir = some entries →
        (clear_cache s).cacheDir = some [])
    ∧ (s.cacheDir = none → clear_cache s = s) := by
  constructor
  · intro entries h
    simp [clear_cache, h]
  · intro h
    simp [clear_cache, h]

/-- C9 witness: clearing the fresh engine's cache leaves an existing empty
directory. -/
theorem C9_clear_cache_witness :
    initState.cacheDir = some [] ∧ (clear_cache initState).cacheDir = some [] :=
  ⟨rfl, (C9_clear_cache initState).1 [] rfl⟩

/-- C10: sync passes never remove metadata or url-map entries; after any
sequence of passes from a fresh engine the metadata keys are exactly the
distinct product ids successfully embedded in any pass ever, with no
duplicates, so `get_indexed_count` counts them — and this count can exceed
the size of (and contain ids absent from) the currently served slot
mapping. -/
theorem C10_metadata_accumulates (env : Env)
    (passes : List (List FirestoreProduct)) :
    (∀ (s : EngineState) (ps : List FirestoreProduct) (x : String),
        x ∈ dictKeys s.product_metadata →
          x ∈ dictKeys (sync_products env s ps).state.product_metadata)
    ∧ (∀ (s : EngineState) (ps : List FirestoreProduct) (x : String),
        x ∈ dictKeys s.indexed_urls →
          x ∈ dictKeys (sync_products env s ps).state.indexed_urls)
    ∧ (∀ x, x ∈ dictKeys (runSyncs env initState passes).product_metadata
        ↔ x ∈ allEmbeddedIds env initState passes)
    ∧ (dictKeys (runSyncs env initState passes).product_metadata).Nodup
    ∧ get_indexed_count (runSyncs env initState passes)
        = (allEmbeddedIds env initState passes).dedup.length
    ∧ ∃ (env' : Env) (passes' : List (List FirestoreProduct)),
        get_indexed_count (runSyncs env' initState passes')
            > (runSyncs env' initState passes').faiss_to_product.length
        ∧ ∃ x, x ∈ dictKeys (runSyncs env' initState passes').product_metadata
            ∧ x ∉ (runSyncs env' initState passes').faiss_to_product := by
  have hmem : ∀ x, x ∈ dictKeys (runSyncs env initState passes).product_metadata
      ↔ x ∈ allEmbeddedIds env initState passes := by
    intro x
    rw [runSyncs_meta_mem]
    simp [initState, dictKeys]
  have hnd : (dictKeys (runSyncs env initState passes).product_metadata).Nodup :=
    runSyncs_meta_nodup env initState passes (by simp [initState, dictKeys])
  refine ⟨?_, ?_, hmem, hnd, ?_, ?_⟩
  · intro s ps x h
    rw [sync_products_meta]
    exact syncLoop_meta_mono env s ps x h
  · intro s ps x h
    rw [sync_products_urls]
    exact syncLoop_urls_mem env s ps x h
  · have hfin : (dictKeys (runSyncs env initState passes).product_metadata).toFinset
        = (allEmbeddedIds env initState passes).toFinset := by
      ext a
      simp only [List.mem_toFinset]
      exact hmem a
    calc get_indexed_count (runSyncs env initState passes)
        = (dictKeys (runSyncs env initState passes).product_metadata).length := by
          simp [get_indexed_count, dictKeys]
      _ = (dictKeys (runSyncs env initState passes).product_metadata).toFinset.card :=
          (List.toFinset_card_of_nodup hnd).symm
      _ = (allEmbeddedIds env initState passes).toFinset.card := by rw [hfin]
      _ = (allEmbeddedIds env initState passes).dedup.toFinset.card := by
          congr 1
          ext a
          simp [List.mem_toFinset, List.mem_dedup]
      _ = (allEmbeddedIds env initState passes).dedup.length :=
          List.toFinset_card_of_nodup (allEmbeddedIds env initState passes).nodup_dedup
  · exact ⟨testEnv, [[prodA], [prodB]], by decide, "a", by decide, by decide⟩

/-- C10 witness: the accumulated-count identity at a concrete two-pass run. -/
theorem C10_metadata_accumulates_witness :
    get_indexed_count (runSyncs testEnv initState [[prodA], [prodB]])
      = (allEmbeddedIds testEnv initState [[prodA], [prodB]]).dedup.length :=
  (C10_metadata_accumulates testEnv [[prodA], [prodB]]).2.2.2.2.1
